import Mathlib

/-!
Shallow embedding of the Bank-Analyzer core (src/app/parser.py, src/app/main.py,
src/app/analyzer.py).

Modelling conventions:
* Python `float` amounts and positions are modelled as `ℚ` (the source performs
  exact-looking decimal arithmetic on statement amounts; binary rounding error is
  not modelled).  Pandas `NaN` values, which arise only from `Series.std()` on
  fewer than two samples, are modelled by `Option ℚ` with `none` standing for NaN.
* Python `str` is modelled as `List Char`; the relevant `str` operations
  (`strip`, `replace`, `join`, membership, `in`) are defined below.
* A pandas `DataFrame` of transactions is modelled as `List Transaction`
  (rows in order); `DataFrame.sort_values` and Python `sorted` are modelled by a
  stable insertion sort.
* `datetime` values produced by `strptime("%d/%m/%y")` are midnight timestamps;
  they are modelled by a `Date` record (year, month, day), so `.dt.date` is the
  identity and `.dt.to_period("M")` is the (year, month) pair.
-/

/-- Python `c.isdigit()` restricted to ASCII digits, as produced by `str` input. -/
def isDigitC (c : Char) : Bool :=
  decide ('0' ≤ c) && decide (c ≤ '9')

/-- Python `str.strip()`: drop whitespace from both ends. -/
def stripChars (s : List Char) : List Char :=
  ((s.dropWhile Char.isWhitespace).reverse.dropWhile Char.isWhitespace).reverse

/-- Python `s.replace(",", "")`: remove every comma. -/
def removeCommas (s : List Char) : List Char :=
  s.filter (fun c => !(c = ','))

/-- Python `pat in s` substring test. -/
def containsSub (pat : List Char) : List Char → Bool
  | [] => List.isPrefixOf pat []
  | c :: cs => List.isPrefixOf pat (c :: cs) || containsSub pat cs

/-- Python `" ".join(texts)`. -/
def joinSpace : List (List Char) → List Char
  | [] => []
  | [t] => t
  | t :: ts => t ++ ' ' :: joinSpace ts

/-- Split a character list on a separator character (used for `"%d/%m/%y"` fields). -/
def splitOnChar (sep : Char) : List Char → List (List Char)
  | [] => [[]]
  | c :: cs =>
    let r := splitOnChar sep cs
    if c = sep then [] :: r
    else
      match r with
      | [] => [[c]]
      | g :: gs => (c :: g) :: gs

/-- Numeric value of a decimal digit character (`ord(c) - ord('0')` on digits). -/
def digitVal (c : Char) : ℕ :=
  if c = '0' then 0 else if c = '1' then 1 else if c = '2' then 2
  else if c = '3' then 3 else if c = '4' then 4 else if c = '5' then 5
  else if c = '6' then 6 else if c = '7' then 7 else if c = '8' then 8 else 9

/-- Digits to a natural number, most significant first (Python `int(str)`). -/
def digitsToNat (s : List Char) : ℕ :=
  s.foldl (fun n c => 10 * n + digitVal c) 0

/-- Decimal numeral without sign: `digits`, `digits.digits`, `digits.` or `.digits`,
standing for the fraction part of Python `float(str)` (the forms taken by statement
amounts; exponent, infinity and NaN literals do not occur in amount columns). -/
def parseUnsigned (s : List Char) : Option ℚ :=
  match splitOnChar '.' s with
  | [w] =>
    if w ≠ [] ∧ w.all isDigitC then some (digitsToNat w) else none
  | [w, f] =>
    if (w ≠ [] ∨ f ≠ []) ∧ w.all isDigitC ∧ f.all isDigitC then
      some ((digitsToNat w : ℚ) + (digitsToNat f : ℚ) / 10 ^ f.length)
    else none
  | _ => none

/-- Python `float(str)` on a stripped string: optional sign then an unsigned numeral. -/
def parseFloat (s : List Char) : Option ℚ :=
  match s with
  | '-' :: rest => (parseUnsigned rest).map (fun q => -q)
  | '+' :: rest => parseUnsigned rest
  | _ => parseUnsigned s

/-- Python `round(x)` (ndigits 0): round half to even, as an integer. -/
def roundHalfEven (q : ℚ) : ℤ :=
  let f := ⌊q⌋
  let r := q - f
  if r < 1 / 2 then f
  else if 1 / 2 < r then f + 1
  else if f % 2 = 0 then f else f + 1

/-- Python `round(x, 2)`: round half to even at two decimal places. -/
def round2 (q : ℚ) : ℚ :=
  (roundHalfEven (q * 100) : ℚ) / 100

/-- Stable insertion of `a` into `l`: `a` goes before the first element `b` with
`le a b`; since sorting inserts earlier input elements last, equal-key elements
keep their input order (Python `sorted` and the modelled pandas sorts are stable). -/
def insertLe (le : α → α → Bool) (a : α) : List α → List α
  | [] => [a]
  | b :: l => if le a b then a :: b :: l else b :: insertLe le a l

/-- Stable insertion sort by the boolean relation `le`. -/
def isortLe (le : α → α → Bool) : List α → List α
  | [] => []
  | a :: l => insertLe le a (isortLe le l)

/-- Arithmetic mean of a list of rationals (pandas `Series.mean`); the empty case
never reaches this value in the source because every caller guards emptiness. -/
def listMean (xs : List ℚ) : ℚ :=
  xs.sum / (xs.length : ℚ)

-- ------------------------------------------------------------------
-- Data model
-- ------------------------------------------------------------------

/-- Calendar date, the value of `datetime.strptime(first_word, "%d/%m/%y")`. -/
structure Date where
  year : ℕ
  month : ℕ
  day : ℕ
deriving DecidableEq, Repr, Inhabited

/-- Chronological comparison of dates (lexicographic on year, month, day). -/
def dateLe (a b : Date) : Bool :=
  decide (a.year < b.year) ||
    (decide (a.year = b.year) &&
      (decide (a.month < b.month) ||
        (decide (a.month = b.month) && decide (a.day ≤ b.day))))

/-- A positioned text token from one page: `w["text"]`, `w["x0"]`, `w["top"]`
of a `pdfplumber` word. -/
structure Token where
  text : List Char
  x0 : ℚ
  top : ℚ
deriving Repr

/-- One extracted transaction row (a row of the parser's DataFrame). -/
structure Transaction where
  date : Date
  narration : List Char
  ref_no : List Char
  value_date : List Char
  debit : ℚ
  credit : ℚ
  balance : ℚ
deriving Repr, Inhabited, DecidableEq

-- ------------------------------------------------------------------
-- src/app/parser.py — parse_hdfc_pdf
-- ------------------------------------------------------------------

/-- `rows.setdefault(top, []).append(w)`: append `w` to the group keyed `k`,
creating the group at the end when the key is new (dict insertion order). -/
def addToRows (k : ℤ) (w : Token) : List (ℤ × List Token) → List (ℤ × List Token)
  | [] => [(k, [w])]
  | (k0, ws) :: rest =>
    if k0 = k then (k0, ws ++ [w]) :: rest else (k0, ws) :: addToRows k w rest

/-- Group a page's words into rows by `round(w["top"], 0)`, keeping dict
insertion order of the keys. -/
def groupRows (words : List Token) : List (ℤ × List Token) :=
  words.foldl (fun rows w => addToRows (roundHalfEven w.top) w rows) []

/-- Gregorian leap year (`datetime` validity). -/
def isLeap (y : ℕ) : Bool :=
  (decide (y % 4 = 0) && !(decide (y % 100 = 0))) || decide (y % 400 = 0)

/-- Days in a month (`datetime` validity). -/
def daysInMonth (y m : ℕ) : ℕ :=
  if m = 2 then (if isLeap y then 29 else 28)
  else if m = 4 ∨ m = 6 ∨ m = 9 ∨ m = 11 then 30
  else 31

/-- `datetime.strptime(first_word, "%d/%m/%y")`: day and month are one or two
digits in range, the year exactly two digits (69–99 map to 19xx, 00–68 to 20xx),
the separators literal slashes, the whole string consumed, and the resulting
calendar date valid.  Failure raises `ValueError`, modelled as `none`. -/
def parseDate (s : List Char) : Option Date :=
  match splitOnChar '/' s with
  | [d, m, y] =>
    if d ≠ [] ∧ d.length ≤ 2 ∧ d.all isDigitC ∧
       m ≠ [] ∧ m.length ≤ 2 ∧ m.all isDigitC ∧
       y.length = 2 ∧ y.all isDigitC then
      let dv := digitsToNat d
      let mv := digitsToNat m
      let yv := digitsToNat y
      let year := if yv ≤ 68 then 2000 + yv else 1900 + yv
      if 1 ≤ mv ∧ mv ≤ 12 ∧ 1 ≤ dv ∧ dv ≤ daysInMonth year mv then
        some ⟨year, mv, dv⟩
      else none
    else none
  | _ => none

/-- The six column accumulators of the row loop, each a string built by
appending `w["text"] + " "`. -/
structure Bands where
  narration : List Char
  ref_no : List Char
  value_date : List Char
  withdrawal : List Char
  deposit : List Char
  balance : List Char

/-- The body of the column-detection loop: the
`if 60 < x < 250: … elif … elif x >= 550:` chain of parser.py applied to one
word. -/
def classifyStep (b : Bands) (w : Token) : Bands :=
  let x := w.x0
  if 60 < x ∧ x < 250 then { b with narration := b.narration ++ w.text ++ [' '] }
  else if 250 ≤ x ∧ x < 330 then { b with ref_no := b.ref_no ++ w.text ++ [' '] }
  else if 330 ≤ x ∧ x < 390 then { b with value_date := b.value_date ++ w.text ++ [' '] }
  else if 390 ≤ x ∧ x < 470 then { b with withdrawal := b.withdrawal ++ w.text ++ [' '] }
  else if 470 ≤ x ∧ x < 550 then { b with deposit := b.deposit ++ w.text ++ [' '] }
  else if 550 ≤ x then { b with balance := b.balance ++ w.text ++ [' '] }
  else b

/-- Column detection by X position, folded over the row's words in
left-to-right order. -/
def classifyBands (row_words : List Token) : Bands :=
  row_words.foldl classifyStep ⟨[], [], [], [], [], []⟩

/-- `float(band.replace(",", "").strip()) if band.strip() else 0.0`; a parse
failure (`ValueError`) is `none` and discards the row. -/
def parseAmount (s : List Char) : Option ℚ :=
  if stripChars s = [] then some 0 else parseFloat (stripChars (removeCommas s))

/-- The header-row marker literals. -/
def dateMarker : List Char := ['D', 'a', 't', 'e']

/-- The header-row marker literals. -/
def narrationMarker : List Char := ['N', 'a', 'r', 'r', 'a', 't', 'i', 'o', 'n']

/-- The body of the row loop of `parse_hdfc_pdf`: sort the row's words left to
right, skip header rows, require the leading token to look like a date
(`"/" in first_word and len(first_word) >= 8`) and parse it, classify the words
into bands, parse the three numeric bands, and build the transaction; any
failure inside the `try` block silently drops the row (`none`). -/
def processRow (row_words : List Token) : Option Transaction :=
  match isortLe (fun v w => decide (v.x0 ≤ w.x0)) row_words with
  | [] => none
  | first :: rest =>
    let sortedRow := first :: rest
    let full_row := joinSpace (sortedRow.map (fun w => w.text))
    if containsSub dateMarker full_row && containsSub narrationMarker full_row then
      none
    else
      let first_word := first.text
      if ('/' ∈ first_word) ∧ 8 ≤ first_word.length then
        match parseDate first_word with
        | none => none
        | some date =>
          let b := classifyBands sortedRow
          match parseAmount b.withdrawal, parseAmount b.deposit, parseAmount b.balance with
          | some withdrawal, some deposit, some balance =>
            some ⟨date, stripChars b.narration, stripChars b.ref_no,
                  stripChars b.value_date, withdrawal, deposit, balance⟩
          | _, _, _ => none
      else none

/-- Transactions contributed by one page: every row group, in dict insertion
order, through `processRow`. -/
def pageTxns (words : List Token) : List Transaction :=
  ((groupRows words).map Prod.snd).filterMap processRow

/-- `parse_hdfc_pdf`: accumulate the valid rows of every page, in page order.
The input is the token stream the external text-layer extraction supplies
(per page, the `extract_words` list); the returned list is the DataFrame's rows. -/
def parse_hdfc_pdf (pages : List (List Token)) : List Transaction :=
  pages.foldl (fun acc page => acc ++ pageTxns page) []

-- ------------------------------------------------------------------
-- src/app/main.py — summary, monthly summary, loan readiness, process
-- ------------------------------------------------------------------

/-- The four fields returned by `generate_summary`. -/
structure SummaryBase where
  total_income : ℚ
  total_expense : ℚ
  net_flow : ℚ
  avg_balance : ℚ
deriving Repr, DecidableEq

/-- The summary dict after `process_statement` adds the two balances. -/
structure Summary extends SummaryBase where
  opening_balance : ℚ
  closing_balance : ℚ
deriving Repr, DecidableEq

/-- One row of the `generate_monthly_summary` DataFrame; `month` is the
`(year, month)` pair behind the `to_period("M")` value (its `astype(str)`
presentation is not modelled). -/
structure MonthlyBucket where
  month : ℕ × ℕ
  credit : ℚ
  debit : ℚ
  net : ℚ
deriving Repr, DecidableEq

/-- The dict returned by `generate_loan_readiness`; `loan_score` is an integer
sum of sub-scores, so `round(total_score, 2)` is the identity on it. -/
structure LoanMetrics where
  loan_score : ℕ
  rating : String
  avg_monthly_income : ℚ
  avg_monthly_expense : ℚ
  monthly_surplus : ℚ
deriving Repr, DecidableEq

/-- `df["credit"].sum()` (the `total_income` aggregate before rounding). -/
def total_credit_of (df : List Transaction) : ℚ :=
  (df.map (fun t => t.credit)).sum

/-- `df["debit"].sum()` (the `total_expense` aggregate before rounding). -/
def total_debit_of (df : List Transaction) : ℚ :=
  (df.map (fun t => t.debit)).sum

/-- Replace the value at key `k` if present, else append `(k, v)`: the shape of
`groupby(...).last()`, which keeps one (the last-seen) row per group key. -/
def updateAssoc (k : Date) (v : Transaction) :
    List (Date × Transaction) → List (Date × Transaction)
  | [] => [(k, v)]
  | (k0, v0) :: rest =>
    if k0 = k then (k0, v) :: rest else (k0, v0) :: updateAssoc k v rest

/-- `df.groupby(df["date"].dt.date).last()`: for every distinct calendar day,
the day's last row in DataFrame order.  (`.dt.date` is the identity here
because parsed dates are midnight timestamps; pandas orders the groups by key,
which does not affect the mean taken of them.) -/
def lastPerDay (df : List Transaction) : List (Date × Transaction) :=
  df.foldl (fun m t => updateAssoc t.date t m) []

/-- The `avg_balance` aggregate of `generate_summary` before rounding: the mean
of each day's last recorded balance. -/
def avg_balance_of (df : List Transaction) : ℚ :=
  listMean ((lastPerDay df).map (fun p => p.2.balance))

/-- `generate_summary` (main.py): totals, net flow and daily-closing average,
each rounded to two decimals. -/
def generate_summary (df : List Transaction) : SummaryBase :=
  let total_income := total_credit_of df
  let total_expense := total_debit_of df
  let net_flow := total_income - total_expense
  { total_income := round2 total_income
    total_expense := round2 total_expense
    net_flow := round2 net_flow
    avg_balance := round2 (avg_balance_of df) }

/-- `(t.date.year, t.date.month)`: the `to_period("M")` key of a row. -/
def monthOf (t : Transaction) : ℕ × ℕ :=
  (t.date.year, t.date.month)

/-- Accumulate one row's credit and debit into its month group (the running
sums behind `groupby("month").agg({"credit": "sum", "debit": "sum"})`),
appending a new group when the key is new. -/
def bumpMonth (k : ℕ × ℕ) (c d : ℚ) :
    List ((ℕ × ℕ) × ℚ × ℚ) → List ((ℕ × ℕ) × ℚ × ℚ)
  | [] => [(k, c, d)]
  | (k0, c0, d0) :: rest =>
    if k0 = k then (k0, c0 + c, d0 + d) :: rest else (k0, c0, d0) :: bumpMonth k c d rest

/-- Chronological comparison of `(year, month)` keys. -/
def monthLe (a b : ℕ × ℕ) : Bool :=
  decide (a.1 < b.1) || (decide (a.1 = b.1) && decide (a.2 ≤ b.2))

/-- `generate_monthly_summary` (main.py): group the rows by calendar month,
sum credits and debits per group, order the groups by month (pandas `groupby`
sorts the keys), and add `net = credit - debit`. -/
def generate_monthly_summary (df : List Transaction) : List MonthlyBucket :=
  let grouped := df.foldl (fun acc t => bumpMonth (monthOf t) t.credit t.debit acc) []
  (isortLe (fun a b => monthLe a.1 b.1) grouped).map
    (fun g => ⟨g.1, g.2.1, g.2.2, g.2.1 - g.2.2⟩)

/-- `monthly_summary["credit"].mean() if months else 0`. -/
def avg_income_of (monthly : List MonthlyBucket) : ℚ :=
  if monthly.length = 0 then 0 else listMean (monthly.map (fun b => b.credit))

/-- `monthly_summary["debit"].mean() if months else 0`. -/
def avg_expense_of (monthly : List MonthlyBucket) : ℚ :=
  if monthly.length = 0 then 0 else listMean (monthly.map (fun b => b.debit))

/-- Surplus sub-score (max 40): `surplus > avg_income * 0.25` gives 40,
else `surplus > 0` gives 25, else 5. -/
def surplus_score (surplus avg_income : ℚ) : ℕ :=
  if avg_income * (1 / 4) < surplus then 40
  else if 0 < surplus then 25
  else 5

/-- Sample variance of the month credits with ddof 1, the square of
`monthly_summary["credit"].std()`; pandas returns NaN on fewer than two
samples, modelled as `none`.  The square root is taken inside the comparison
helper `sqrtVarDivLt`, which keeps the embedding inside `ℚ`. -/
def sampleVar (xs : List ℚ) : Option ℚ :=
  if xs.length < 2 then none
  else some ((xs.map (fun x => (x - listMean xs) ^ 2)).sum / ((xs.length : ℚ) - 1))

/-- Decides `Real.sqrt v / m < c` for a sample variance `v ≥ 0`, a nonzero mean
`m` and a positive threshold `c` without leaving `ℚ`: for `m > 0` compare
`v < (c·m)²`; for `m < 0` the quotient is nonpositive, hence below `c`.
`sqrtVarDivLt_eq_sqrt_lt` below proves this equal to the real comparison. -/
def sqrtVarDivLt (v m c : ℚ) : Bool :=
  if 0 < m then decide (v < (c * m) ^ 2) else true

/-- `variation < c` where `variation = std(credits) / avg_income` (pandas float
semantics: any comparison against NaN is false). -/
def variationLt (credits : List ℚ) (avg_income c : ℚ) : Bool :=
  match sampleVar credits with
  | none => false
  | some v => sqrtVarDivLt v avg_income c

/-- Stability sub-score (max 30): `variation = std/avg_income if avg_income
else 1`, then `< 0.25` gives 30, `< 0.5` gives 15, else 5. -/
def stability_score (credits : List ℚ) (avg_income : ℚ) : ℕ :=
  if avg_income = 0 then
    (if (1 : ℚ) < 1 / 4 then 30 else if (1 : ℚ) < 1 / 2 then 15 else 5)
  else
    if variationLt credits avg_income (1 / 4) then 30
    else if variationLt credits avg_income (1 / 2) then 15
    else 5

/-- Balance-health sub-score (max 30): `closing_balance > avg_expense` gives 30,
else `closing_balance > avg_expense * 0.5` gives 15, else 5. -/
def balance_score (closing_balance avg_expense : ℚ) : ℕ :=
  if avg_expense < closing_balance then 30
  else if avg_expense * (1 / 2) < closing_balance then 15
  else 5

/-- The rating ladder on the total score, evaluated high to low. -/
def rating_of (total_score : ℕ) : String :=
  if 80 ≤ total_score then "Strong"
  else if 60 ≤ total_score then "Moderate"
  else if 40 ≤ total_score then "Risky"
  else "High Risk"

/-- `generate_loan_readiness` (main.py): the three sub-scores from the monthly
summary and the closing balance, their sum, and the rating. -/
def generate_loan_readiness (summary : Summary) (monthly : List MonthlyBucket) :
    LoanMetrics :=
  let avg_income := avg_income_of monthly
  let avg_expense := avg_expense_of monthly
  let surplus := avg_income - avg_expense
  let s1 := surplus_score surplus avg_income
  let s2 := stability_score (monthly.map (fun b => b.credit)) avg_income
  let s3 := balance_score summary.closing_balance avg_expense
  let total_score := s1 + s2 + s3
  { loan_score := total_score
    rating := rating_of total_score
    avg_monthly_income := round2 avg_income
    avg_monthly_expense := round2 avg_expense
    monthly_surplus := round2 surplus }

/-- Opening-balance reconstruction from the first sorted row (main.py lines
135–142): `balance - credit` when `credit > 0`, else `balance + debit`.
(`first.get("credit", 0) or 0` maps a zero credit to `0`, the same value.) -/
def opening_balance_of (first : Transaction) : ℚ :=
  if 0 < first.credit then first.balance - first.credit
  else first.balance + first.debit

/-- `df.sort_values(["date"])` and the balance reconstruction of
`process_statement` (lines 129–144): the sorted ledger, the reconstructed
opening balance and the closing balance of the last sorted row.  The sort is
modelled as a stable sort by date; pandas guarantees the ordering by key
(tie order under the default quicksort kind is a separate question). -/
def normalize_ledger (df0 : List Transaction) :
    List Transaction × ℚ × ℚ :=
  let df := isortLe (fun a b => dateLe a.date b.date) df0
  let first := df.headI
  let lastT := df.getLastD default
  (df, opening_balance_of first, lastT.balance)

/-- The tuple `process_statement` returns. -/
structure Output where
  df : List Transaction
  summary : Summary
  monthly : List MonthlyBucket
  loan : LoanMetrics
deriving Repr

/-- `process_statement` (main.py): parse, fail on an empty DataFrame with the
`HTTPException(400, "No transactions detected.")`, else sort, reconstruct the
balances, aggregate and score.  The error branch carries only the message:
no summary, monthly summary or loan metrics exist for it. -/
def process_statement (pages : List (List Token)) : Except String Output :=
  let df0 := parse_hdfc_pdf pages
  if df0 = [] then Except.error "No transactions detected."
  else
    let n := normalize_ledger df0
    let df := n.1
    let opening_balance := n.2.1
    let closing_balance := n.2.2
    let sb := generate_summary df
    let monthly := generate_monthly_summary df
    let summary : Summary :=
      { toSummaryBase := sb
        opening_balance := round2 opening_balance
        closing_balance := round2 closing_balance }
    let loan := generate_loan_readiness summary monthly
    Except.ok ⟨df, summary, monthly, loan⟩

-- ------------------------------------------------------------------
-- src/app/analyzer.py — the summary part of analyze_transactions
-- ------------------------------------------------------------------

/-- `df["balance"].mean()` of analyzer.py: the mean over every row's balance
(the competing definition of average balance; compare `avg_balance_of`). -/
def analyzer_avg_balance (df : List Transaction) : ℚ :=
  listMean (df.map (fun t => t.balance))

/-- The summary dict of `analyze_transactions` (analyzer.py); its separate
monthly-summary output is not used by any claim and is not modelled. -/
structure AnalyzeSummary where
  total_credit : ℚ
  total_debit : ℚ
  net_flow : ℚ
  avg_balance : ℚ
  total_transactions : ℕ
deriving Repr, DecidableEq

/-- The summary computed by `analyze_transactions` (analyzer.py). -/
def analyze_transactions_summary (df : List Transaction) : AnalyzeSummary :=
  { total_credit := round2 (total_credit_of df)
    total_debit := round2 (total_debit_of df)
    net_flow := round2 (total_credit_of df - total_debit_of df)
    avg_balance := round2 (analyzer_avg_balance df)
    total_transactions := df.length }

-- ------------------------------------------------------------------
-- Spec-side definitions (for comparison against the source embedding)
-- ------------------------------------------------------------------

/-- The distinct calendar days of a ledger, in order of first appearance. -/
def dedupDates (df : List Transaction) : List Date :=
  df.foldl (fun acc t => if t.date ∈ acc then acc else acc ++ [t.date]) []

/-- The last transaction of a given day, in ledger order. -/
def lastWith (df : List Transaction) (d : Date) : Transaction :=
  (df.filter (fun t => t.date = d)).getLastD default

/-- Spec-side reading of the average balance: one observation per calendar day,
namely the day's last recorded balance ("mean of each calendar day's LAST
transaction balance").  Compared against `avg_balance_of` below. -/
def specDailyLastBalances (df : List Transaction) : List ℚ :=
  (dedupDates df).map (fun d => (lastWith df d).balance)

/-- No field of the band accumulator contains a minus sign (used for the
nonnegativity analysis of parsed amounts). -/
def NoMinusBands (b : Bands) : Prop :=
  ('-' ∉ b.narration) ∧ ('-' ∉ b.ref_no) ∧ ('-' ∉ b.value_date) ∧
    ('-' ∉ b.withdrawal) ∧ ('-' ∉ b.deposit) ∧ ('-' ∉ b.balance)

-- ------------------------------------------------------------------
-- Helper lemmas: the stable insertion sort
-- ------------------------------------------------------------------

theorem insertLe_perm (le : α → α → Bool) (a : α) (l : List α) :
    (insertLe le a l).Perm (a :: l) := by
  induction l with
  | nil => simp [insertLe]
  | cons b l ih =>
    simp only [insertLe]
    split
    · exact List.Perm.refl _
    · exact ((ih.cons b).trans (List.Perm.swap a b l))

theorem isortLe_perm (le : α → α → Bool) (l : List α) :
    (isortLe le l).Perm l := by
  induction l with
  | nil => simp [isortLe]
  | cons a l ih =>
    exact (insertLe_perm le a (isortLe le l)).trans (ih.cons a)

theorem mem_isortLe (le : α → α → Bool) (l : List α) (x : α) :
    x ∈ isortLe le l ↔ x ∈ l :=
  (isortLe_perm le l).mem_iff

theorem pairwise_insertLe (le : α → α → Bool)
    (htrans : ∀ a b c, le a b = true → le b c = true → le a c = true)
    (total : ∀ a b, le a b = true ∨ le b a = true) (a : α) (l : List α)
    (h : l.Pairwise fun x y => le x y = true) :
    (insertLe le a l).Pairwise fun x y => le x y = true := by
  induction l with
  | nil => simp [insertLe]
  | cons b l ih =>
    rcases List.pairwise_cons.1 h with ⟨hb, hl⟩
    simp only [insertLe]
    split
    · rename_i hab
      refine List.pairwise_cons.2 ⟨?_, h⟩
      intro y hy
      rcases List.mem_cons.1 hy with rfl | hy
      · exact hab
      · exact htrans a b y hab (hb y hy)
    · rename_i hab
      rcases total a b with hab2 | hba
      · exact absurd hab2 hab
      · refine List.pairwise_cons.2 ⟨?_, ih hl⟩
        intro y hy
        rcases List.mem_cons.1 ((insertLe_perm le a l).mem_iff.1 hy) with rfl | hy
        · exact hba
        · exact hb y hy

theorem pairwise_isortLe (le : α → α → Bool)
    (htrans : ∀ a b c, le a b = true → le b c = true → le a c = true)
    (total : ∀ a b, le a b = true ∨ le b a = true) (l : List α) :
    (isortLe le l).Pairwise fun x y => le x y = true := by
  induction l with
  | nil => simp [isortLe]
  | cons a l ih => exact pairwise_insertLe le htrans total a _ ih

theorem head_min_of_pairwise [Inhabited α] (le : α → α → Bool)
    (rfl0 : ∀ a, le a a = true) (l : List α)
    (h : l.Pairwise fun x y => le x y = true) :
    ∀ y ∈ l, le l.headI y = true := by
  cases l with
  | nil => intro y hy; cases hy
  | cons a l =>
    intro y hy
    rcases List.mem_cons.1 hy with rfl | hy
    · exact rfl0 y
    · exact (List.pairwise_cons.1 h).1 y hy

theorem getLastD_cons_mem (l : List α) (b d : α) :
    (b :: l).getLastD d ∈ b :: l := by
  induction l generalizing b d with
  | nil => simp
  | cons c t ih =>
    rw [List.getLastD_cons]
    exact List.mem_cons_of_mem b (ih c b)

theorem last_max_of_pairwise [Inhabited α] (le : α → α → Bool)
    (rfl0 : ∀ a, le a a = true) (l : List α)
    (h : l.Pairwise fun x y => le x y = true) :
    ∀ y ∈ l, le y (l.getLastD default) = true := by
  induction l with
  | nil => intro y hy; cases hy
  | cons a l ih =>
    rcases List.pairwise_cons.1 h with ⟨ha, hl⟩
    intro y hy
    cases l with
    | nil =>
      rcases List.mem_cons.1 hy with rfl | hy
      · exact rfl0 y
      · cases hy
    | cons b t =>
      have hlast : (a :: b :: t).getLastD default = (b :: t).getLastD default := by
        simp [List.getLastD_cons]
      rw [hlast]
      rcases List.mem_cons.1 hy with rfl | hy
      · exact ha _ (getLastD_cons_mem t b default)
      · exact ih hl y hy

theorem dateLe_refl (a : Date) : dateLe a a = true := by
  simp [dateLe]

theorem dateLe_total (a b : Date) : dateLe a b = true ∨ dateLe b a = true := by
  simp only [dateLe, Bool.or_eq_true, Bool.and_eq_true, decide_eq_true_eq]
  omega

theorem dateLe_trans (a b c : Date) (h1 : dateLe a b = true) (h2 : dateLe b c = true) :
    dateLe a c = true := by
  simp only [dateLe, Bool.or_eq_true, Bool.and_eq_true, decide_eq_true_eq] at *
  omega

-- ------------------------------------------------------------------
-- Helper lemmas: the scorer
-- ------------------------------------------------------------------

theorem sampleVar_nonneg (xs : List ℚ) (v : ℚ) (h : sampleVar xs = some v) : 0 ≤ v := by
  unfold sampleVar at h
  split at h
  · exact absurd h (by simp)
  · rename_i hlen
    simp only [Option.some.injEq] at h
    subst h
    apply div_nonneg
    · apply List.sum_nonneg
      intro x hx
      rcases List.mem_map.1 hx with ⟨y, hy, rfl⟩
      positivity
    · have h2 : (2 : ℚ) ≤ (xs.length : ℚ) := by
        have := not_lt.1 hlen
        exact_mod_cast this
      linarith

/-- Justification that `sqrtVarDivLt` decides the real comparison
`std / avg_income < c` the float code performs. -/
theorem sqrtVarDivLt_eq_sqrt_lt (v m c : ℚ) (hv : 0 ≤ v) (hm : m ≠ 0) (hc : 0 < c) :
    (sqrtVarDivLt v m c = true) ↔ Real.sqrt (v : ℝ) / (m : ℝ) < (c : ℝ) := by
  unfold sqrtVarDivLt
  rcases lt_trichotomy (0 : ℚ) m with hpos | heq | hneg
  · rw [if_pos hpos, decide_eq_true_eq]
    have hmr : (0 : ℝ) < (m : ℝ) := by exact_mod_cast hpos
    have hcm : (0 : ℝ) < (c : ℝ) * (m : ℝ) := by
      have hcr : (0 : ℝ) < (c : ℝ) := by exact_mod_cast hc
      positivity
    rw [div_lt_iff hmr, Real.sqrt_lt' hcm]
    constructor
    · intro h
      have : ((v : ℚ) : ℝ) < (((c * m) ^ 2 : ℚ) : ℝ) := by exact_mod_cast h
      simpa [mul_pow] using this
    · intro h
      have : ((v : ℚ) : ℝ) < (((c * m) ^ 2 : ℚ) : ℝ) := by
        push_cast
        nlinarith [h]
      exact_mod_cast this
  · exact absurd heq.symm hm
  · rw [if_neg (by exact not_lt.2 (le_of_lt hneg))]
    simp only [true_iff]
    have hmr : (m : ℝ) < 0 := by exact_mod_cast hneg
    have hvr : (0 : ℝ) ≤ Real.sqrt (v : ℝ) := Real.sqrt_nonneg _
    have hq : Real.sqrt (v : ℝ) / (m : ℝ) ≤ 0 :=
      div_nonpos_iff.2 (Or.inl ⟨hvr, le_of_lt hmr⟩)
    have hcr : (0 : ℝ) < (c : ℝ) := by exact_mod_cast hc
    linarith

theorem surplus_score_cases (s m : ℚ) :
    surplus_score s m = 40 ∨ surplus_score s m = 25 ∨ surplus_score s m = 5 := by
  unfold surplus_score
  split_ifs <;> simp

theorem stability_score_cases (c : List ℚ) (m : ℚ) :
    stability_score c m = 30 ∨ stability_score c m = 15 ∨ stability_score c m = 5 := by
  unfold stability_score
  split_ifs <;> simp

theorem balance_score_cases (b e : ℚ) :
    balance_score b e = 30 ∨ balance_score b e = 15 ∨ balance_score b e = 5 := by
  unfold balance_score
  split_ifs <;> simp

theorem stability_score_of_zero_income (c : List ℚ) :
    stability_score c 0 = 5 := by
  unfold stability_score
  norm_num

theorem surplus_score_mono (e m1 m2 : ℚ) (h : m1 < m2) :
    surplus_score (m1 - e) m1 ≤ surplus_score (m2 - e) m2 := by
  unfold surplus_score
  by_cases h1 : m1 * (1 / 4) < m1 - e
  · have h2 : m2 * (1 / 4) < m2 - e := by linarith
    rw [if_pos h1, if_pos h2]
  · rw [if_neg h1]
    by_cases h3 : (0 : ℚ) < m1 - e
    · have h4 : (0 : ℚ) < m2 - e := by linarith
      rw [if_pos h3]
      by_cases h5 : m2 * (1 / 4) < m2 - e
      · rw [if_pos h5]; omega
      · rw [if_neg h5, if_pos h4]
    · rw [if_neg h3]
      split_ifs <;> omega

theorem ladder_mono (a1 b1 a2 b2 : Bool) (ha : a1 = true → a2 = true)
    (hb : b1 = true → b2 = true) :
    (if a1 then (30 : ℕ) else if b1 then 15 else 5) ≤
      (if a2 then 30 else if b2 then 15 else 5) := by
  cases a1 <;> cases b1 <;> cases a2 <;> cases b2 <;> simp_all

theorem stability_score_mono (c1 c2 : List ℚ) (m1 m2 : ℚ)
    (h0 : 0 ≤ m1) (h12 : m1 < m2) (hv : sampleVar c1 = sampleVar c2) :
    stability_score c1 m1 ≤ stability_score c2 m2 := by
  by_cases hm1 : m1 = 0
  · rw [hm1, stability_score_of_zero_income]
    rcases stability_score_cases c2 m2 with h | h | h <;> omega
  · have hm1p : 0 < m1 := lt_of_le_of_ne h0 (Ne.symm hm1)
    have hm2p : 0 < m2 := lt_trans hm1p h12
    have hm2 : m2 ≠ 0 := ne_of_gt hm2p
    unfold stability_score
    rw [if_neg hm1, if_neg hm2]
    unfold variationLt
    rw [← hv]
    cases hsv : sampleVar c1 with
    | none => simp
    | some v =>
      have step : ∀ c : ℚ, sqrtVarDivLt v m1 c = true → sqrtVarDivLt v m2 c = true := by
        intro c hcc
        unfold sqrtVarDivLt at hcc ⊢
        rw [if_pos hm1p] at hcc
        rw [if_pos hm2p]
        rw [decide_eq_true_eq] at hcc ⊢
        have hsq : m1 ^ 2 ≤ m2 ^ 2 := by nlinarith
        have hle : (c * m1) ^ 2 ≤ (c * m2) ^ 2 := by nlinarith [sq_nonneg c]
        linarith
      exact ladder_mono _ _ _ _ (step _) (step _)

-- ------------------------------------------------------------------
-- Claims C2, C3, C4, C9, C10
-- ------------------------------------------------------------------

/-- C2: `process_statement` fails with the explicit
`HTTPException(400, "No transactions detected.")` exactly when extraction
yields zero transactions; in that case the result is the bare error — the
`Except.error` constructor holds only the message, so no Summary,
MonthlyBucket sequence or LoanMetrics is computed for such an input. -/
theorem C2_empty_ledger_error (pages : List (List Token)) :
    process_statement pages = Except.error "No transactions detected." ↔
      parse_hdfc_pdf pages = [] := by
  unfold process_statement
  by_cases h : parse_hdfc_pdf pages = [] <;> simp [h]

/-- Witness for C2 at the empty token stream. -/
theorem C2_witness :
    process_statement [] = Except.error "No transactions detected." :=
  (C2_empty_ledger_error []).mpr rfl

/-- C3: for every scorer input the total score is the sum of the three
sub-scores and lies in [15, 100]; the rating is the ladder applied to the
total, whose boundaries are inclusive: 80 rates "Strong", 60 "Moderate",
40 "Risky", and generally ≥ 80 is "Strong", [60, 80) "Moderate",
[40, 60) "Risky" and below 40 "High Risk". -/
theorem C3_score_sum_range_rating (s : Summary) (monthly : List MonthlyBucket) :
    (generate_loan_readiness s monthly).loan_score =
        surplus_score (avg_income_of monthly - avg_expense_of monthly) (avg_income_of monthly) +
          stability_score (monthly.map fun b => b.credit) (avg_income_of monthly) +
          balance_score s.closing_balance (avg_expense_of monthly) ∧
      15 ≤ (generate_loan_readiness s monthly).loan_score ∧
      (generate_loan_readiness s monthly).loan_score ≤ 100 ∧
      (generate_loan_readiness s monthly).rating =
        rating_of (generate_loan_readiness s monthly).loan_score ∧
      rating_of 80 = "Strong" ∧ rating_of 60 = "Moderate" ∧ rating_of 40 = "Risky" ∧
      (∀ t : ℕ, 80 ≤ t → rating_of t = "Strong") ∧
      (∀ t : ℕ, 60 ≤ t → t < 80 → rating_of t = "Moderate") ∧
      (∀ t : ℕ, 40 ≤ t → t < 60 → rating_of t = "Risky") ∧
      (∀ t : ℕ, t < 40 → rating_of t = "High Risk") := by
  refine ⟨rfl, ?_, ?_, rfl, by norm_num [rating_of], by norm_num [rating_of],
    by norm_num [rating_of], ?_, ?_, ?_, ?_⟩
  · rcases surplus_score_cases (avg_income_of monthly - avg_expense_of monthly)
      (avg_income_of monthly) with h1 | h1 | h1 <;>
    rcases stability_score_cases (monthly.map fun b => b.credit)
      (avg_income_of monthly) with h2 | h2 | h2 <;>
    rcases balance_score_cases s.closing_balance (avg_expense_of monthly) with h3 | h3 | h3 <;>
    simp [generate_loan_readiness, h1, h2, h3]
  · rcases surplus_score_cases (avg_income_of monthly - avg_expense_of monthly)
      (avg_income_of monthly) with h1 | h1 | h1 <;>
    rcases stability_score_cases (monthly.map fun b => b.credit)
      (avg_income_of monthly) with h2 | h2 | h2 <;>
    rcases balance_score_cases s.closing_balance (avg_expense_of monthly) with h3 | h3 | h3 <;>
    simp [generate_loan_readiness, h1, h2, h3]
  · intro t ht
    unfold rating_of
    rw [if_pos ht]
  · intro t h60 h80
    unfold rating_of
    rw [if_neg (by omega), if_pos h60]
  · intro t h40 h60
    unfold rating_of
    rw [if_neg (by omega), if_neg (by omega), if_pos h40]
  · intro t h40
    unfold rating_of
    rw [if_neg (by omega), if_neg (by omega), if_neg (by omega)]

/-- Witness for C3 at a concrete scorer input and concrete boundary totals. -/
theorem C3_witness :
    15 ≤ (generate_loan_readiness ⟨⟨0, 0, 0, 0⟩, 0, 0⟩ []).loan_score ∧
      rating_of 80 = "Strong" ∧ rating_of 60 = "Moderate" ∧
      rating_of 40 = "Risky" ∧ rating_of 39 = "High Risk" :=
  ⟨(C3_score_sum_range_rating ⟨⟨0, 0, 0, 0⟩, 0, 0⟩ []).2.1,
    (C3_score_sum_range_rating ⟨⟨0, 0, 0, 0⟩, 0, 0⟩ []).2.2.2.2.1,
    (C3_score_sum_range_rating ⟨⟨0, 0, 0, 0⟩, 0, 0⟩ []).2.2.2.2.2.1,
    (C3_score_sum_range_rating ⟨⟨0, 0, 0, 0⟩, 0, 0⟩ []).2.2.2.2.2.2.1,
    (C3_score_sum_range_rating ⟨⟨0, 0, 0, 0⟩, 0, 0⟩ []).2.2.2.2.2.2.2.2.2.2 39 (by norm_num)⟩

/-- C4: when the average bucket income is zero — in particular for an
all-debit statement, where every bucket's total credit is 0 — the variation
falls back to 1 (no division is performed) and the stability sub-score is 5,
which is what the total score is assembled from. -/
theorem C4_zero_income_stability (s : Summary) (monthly : List MonthlyBucket)
    (h : ∀ b ∈ monthly, b.credit = 0) :
    avg_income_of monthly = 0 ∧
      stability_score (monthly.map fun b => b.credit) (avg_income_of monthly) = 5 ∧
      (generate_loan_readiness s monthly).loan_score =
        surplus_score (0 - avg_expense_of monthly) 0 + 5 +
          balance_score s.closing_balance (avg_expense_of monthly) := by
  have havg : avg_income_of monthly = 0 := by
    unfold avg_income_of
    split
    · rfl
    · unfold listMean
      rw [List.sum_eq_zero]
      · simp
      · intro x hx
        rcases List.mem_map.1 hx with ⟨b, hb, rfl⟩
        exact h b hb
  refine ⟨havg, ?_, ?_⟩
  · rw [havg, stability_score_of_zero_income]
  · show surplus_score (avg_income_of monthly - avg_expense_of monthly) (avg_income_of monthly) +
        stability_score (monthly.map fun b => b.credit) (avg_income_of monthly) +
        balance_score s.closing_balance (avg_expense_of monthly) =
        surplus_score (0 - avg_expense_of monthly) 0 + 5 +
          balance_score s.closing_balance (avg_expense_of monthly)
    rw [havg, stability_score_of_zero_income]

/-- Witness for C4 at a single all-debit month. -/
theorem C4_witness :
    avg_income_of [⟨(2024, 1), 0, 500, -500⟩] = 0 ∧
      stability_score ([(⟨(2024, 1), 0, 500, -500⟩ : MonthlyBucket)].map fun b => b.credit)
        (avg_income_of [⟨(2024, 1), 0, 500, -500⟩]) = 5 := by
  have h := C4_zero_income_stability ⟨⟨0, 0, 0, 0⟩, 0, 0⟩ [⟨(2024, 1), 0, 500, -500⟩]
    (by intro b hb; rcases List.mem_singleton.1 hb with rfl; rfl)
  exact ⟨h.1, h.2.1⟩

/-- C10: the sample standard deviation of a single bucket is NaN (`none`), any
variation comparison against NaN is false, and for a monthly summary with one
bucket of nonzero total credit the average income equals that credit and the
stability sub-score is 5: a single-month statement can never score above 5 on
stability, whatever its income. -/
theorem C10_single_bucket_stability (x m c : ℚ) (b : MonthlyBucket) (hb : b.credit ≠ 0) :
    sampleVar [x] = none ∧ variationLt [x] m c = false ∧
      avg_income_of [b] = b.credit ∧
      stability_score [b.credit] (avg_income_of [b]) = 5 := by
  have hsv : ∀ y : ℚ, sampleVar [y] = none := by
    intro y
    unfold sampleVar
    norm_num
  have hvl : ∀ y m0 c0 : ℚ, variationLt [y] m0 c0 = false := by
    intro y m0 c0
    unfold variationLt
    rw [hsv y]
  have havg : avg_income_of [b] = b.credit := by
    unfold avg_income_of listMean
    norm_num
  refine ⟨hsv x, hvl x m c, havg, ?_⟩
  rw [havg]
  unfold stability_score
  rw [if_neg hb, hvl, hvl]
  norm_num

/-- Witness for C10 at a 1000-credit single month. -/
theorem C10_witness :
    sampleVar [(1 : ℚ)] = none ∧ variationLt [(1 : ℚ)] 1 1 = false ∧
      avg_income_of [⟨(2024, 1), 1000, 0, 1000⟩] =
        (⟨(2024, 1), 1000, 0, 1000⟩ : MonthlyBucket).credit ∧
      stability_score [(⟨(2024, 1), 1000, 0, 1000⟩ : MonthlyBucket).credit]
        (avg_income_of [⟨(2024, 1), 1000, 0, 1000⟩]) = 5 := by
  have h := C10_single_bucket_stability 1 1 1 ⟨(2024, 1), 1000, 0, 1000⟩ (by norm_num)
  exact ⟨h.1, h.2.1, h.2.2.1, h.2.2.2⟩

/-- C9 counterexample: with avg_expense, closing balance and the credit
standard deviation all fixed, raising the average income from −10 to 0
drops the total score from 40 to 15, so the claim fails when the smaller
average income is negative. -/
theorem C9_counterexample :
    avg_income_of [⟨(2024, 1), -10, 0, -10⟩, ⟨(2024, 2), -10, 0, -10⟩] <
        avg_income_of [⟨(2024, 1), 0, 0, 0⟩, ⟨(2024, 2), 0, 0, 0⟩] ∧
      avg_expense_of [⟨(2024, 1), -10, 0, -10⟩, ⟨(2024, 2), -10, 0, -10⟩] =
        avg_expense_of [⟨(2024, 1), 0, 0, 0⟩, ⟨(2024, 2), 0, 0, 0⟩] ∧
      sampleVar ([⟨(2024, 1), -10, 0, -10⟩, ⟨(2024, 2), -10, 0, -10⟩].map
          fun b : MonthlyBucket => b.credit) =
        sampleVar ([⟨(2024, 1), 0, 0, 0⟩, ⟨(2024, 2), 0, 0, 0⟩].map
          fun b : MonthlyBucket => b.credit) ∧
      (generate_loan_readiness ⟨⟨0, 0, 0, 0⟩, 0, 0⟩
          [⟨(2024, 1), 0, 0, 0⟩, ⟨(2024, 2), 0, 0, 0⟩]).loan_score <
        (generate_loan_readiness ⟨⟨0, 0, 0, 0⟩, 0, 0⟩
          [⟨(2024, 1), -10, 0, -10⟩, ⟨(2024, 2), -10, 0, -10⟩]).loan_score := by
  refine ⟨by norm_num [avg_income_of, listMean], by norm_num [avg_expense_of, listMean],
    by norm_num [sampleVar, listMean], ?_⟩
  norm_num [generate_loan_readiness, avg_income_of, avg_expense_of, listMean,
    surplus_score, stability_score, variationLt, sampleVar, sqrtVarDivLt, balance_score]

/-- C9 amended: with avg_expense, closing balance and the credit standard
deviation fixed, and the smaller average income nonnegative (as for any
ledger whose credits are nonnegative), a strictly greater average income
never decreases the total score. -/
theorem C9_amended_monotonic (s : Summary) (L1 L2 : List MonthlyBucket)
    (h0 : 0 ≤ avg_income_of L1) (h12 : avg_income_of L1 < avg_income_of L2)
    (he : avg_expense_of L1 = avg_expense_of L2)
    (hv : sampleVar (L1.map fun b => b.credit) = sampleVar (L2.map fun b => b.credit)) :
    (generate_loan_readiness s L1).loan_score ≤ (generate_loan_readiness s L2).loan_score := by
  have h1 := surplus_score_mono (avg_expense_of L1) _ _ h12
  have h2 := stability_score_mono (L1.map fun b => b.credit) (L2.map fun b => b.credit)
    _ _ h0 h12 hv
  show surplus_score (avg_income_of L1 - avg_expense_of L1) (avg_income_of L1) +
      stability_score (L1.map fun b => b.credit) (avg_income_of L1) +
      balance_score s.closing_balance (avg_expense_of L1) ≤
    surplus_score (avg_income_of L2 - avg_expense_of L2) (avg_income_of L2) +
      stability_score (L2.map fun b => b.credit) (avg_income_of L2) +
      balance_score s.closing_balance (avg_expense_of L2)
  rw [← he]
  exact Nat.add_le_add (Nat.add_le_add h1 h2) le_rfl

/-- Witness for C9 at two concrete single-month inputs. -/
theorem C9_witness :
    (generate_loan_readiness ⟨⟨0, 0, 0, 0⟩, 0, 0⟩ [⟨(2024, 1), 100, 100, 0⟩]).loan_score ≤
      (generate_loan_readiness ⟨⟨0, 0, 0, 0⟩, 0, 0⟩ [⟨(2024, 1), 200, 100, 100⟩]).loan_score :=
  C9_amended_monotonic _ _ _ (by norm_num [avg_income_of, listMean])
    (by norm_num [avg_income_of, listMean]) (by norm_num [avg_expense_of, listMean]) rfl

-- ------------------------------------------------------------------
-- Claim C1: opening/closing balance reconstruction
-- ------------------------------------------------------------------

/-- C1 counterexample: a single-row ledger whose first transaction has the
negative (hence nonzero) credit −5.  The code's `credit > 0` test takes the
else branch and reconstructs opening = balance + debit = 100, not the
balance − credit = 105 that the claim's "credit is nonzero" condition
demands. -/
theorem C1_counterexample :
    (normalize_ledger [⟨⟨2024, 1, 5⟩, [], [], [], 0, -5, 100⟩]).2.1 = 100 ∧
      (⟨⟨2024, 1, 5⟩, [], [], [], 0, -5, 100⟩ : Transaction).credit ≠ 0 ∧
      (normalize_ledger [⟨⟨2024, 1, 5⟩, [], [], [], 0, -5, 100⟩]).2.1 ≠
        (⟨⟨2024, 1, 5⟩, [], [], [], 0, -5, 100⟩ : Transaction).balance -
          (⟨⟨2024, 1, 5⟩, [], [], [], 0, -5, 100⟩ : Transaction).credit := by
  refine ⟨?_, by norm_num, ?_⟩ <;>
    norm_num [normalize_ledger, isortLe, insertLe, opening_balance_of,
      List.headI, List.getLastD]

/-- C1 amended: for every non-empty transaction list, writing `f` and `l` for
the first and last rows of the date-sorted ledger, `f` has minimal and `l`
maximal date among the input transactions; if `f.credit` is positive (rather
than merely nonzero) the reconstructed opening balance satisfies
opening + f.credit = f.balance, otherwise opening − f.debit = f.balance;
and the closing balance is `l.balance`. -/
theorem C1_opening_closing (txns : List Transaction) (hne : txns ≠ []) :
    (0 < ((isortLe (fun a b => dateLe a.date b.date) txns).headI).credit →
        (normalize_ledger txns).2.1 +
            ((isortLe (fun a b => dateLe a.date b.date) txns).headI).credit =
          ((isortLe (fun a b => dateLe a.date b.date) txns).headI).balance) ∧
      (¬ 0 < ((isortLe (fun a b => dateLe a.date b.date) txns).headI).credit →
        (normalize_ledger txns).2.1 -
            ((isortLe (fun a b => dateLe a.date b.date) txns).headI).debit =
          ((isortLe (fun a b => dateLe a.date b.date) txns).headI).balance) ∧
      (normalize_ledger txns).2.2 =
        ((isortLe (fun a b => dateLe a.date b.date) txns).getLastD default).balance ∧
      (∀ t ∈ txns,
        dateLe ((isortLe (fun a b => dateLe a.date b.date) txns).headI).date t.date = true ∧
        dateLe t.date
          ((isortLe (fun a b => dateLe a.date b.date) txns).getLastD default).date = true) := by
  have hsorted := pairwise_isortLe (fun a b : Transaction => dateLe a.date b.date)
    (fun a b c h1 h2 => dateLe_trans a.date b.date c.date h1 h2)
    (fun a b => dateLe_total a.date b.date) txns
  refine ⟨?_, ?_, rfl, ?_⟩
  · intro h
    show opening_balance_of ((isortLe (fun a b => dateLe a.date b.date) txns).headI) + _ = _
    unfold opening_balance_of
    rw [if_pos h]
    ring
  · intro h
    show opening_balance_of ((isortLe (fun a b => dateLe a.date b.date) txns).headI) - _ = _
    unfold opening_balance_of
    rw [if_neg h]
    ring
  · intro t ht
    have htmem : t ∈ isortLe (fun a b : Transaction => dateLe a.date b.date) txns :=
      (mem_isortLe _ txns t).2 ht
    constructor
    · exact head_min_of_pairwise (fun a b : Transaction => dateLe a.date b.date)
        (fun a => dateLe_refl a.date) _ hsorted t htmem
    · exact last_max_of_pairwise (fun a b : Transaction => dateLe a.date b.date)
        (fun a => dateLe_refl a.date) _ hsorted t htmem

/-- Witness for C1 at the single-credit ledger of the spec's Scenario A. -/
theorem C1_witness :
    (normalize_ledger [⟨⟨2024, 1, 5⟩, [], [], [], 0, 1000, 5000⟩]).2.1 = 4000 ∧
      (normalize_ledger [⟨⟨2024, 1, 5⟩, [], [], [], 0, 1000, 5000⟩]).2.2 = 5000 := by
  have h := C1_opening_closing [⟨⟨2024, 1, 5⟩, [], [], [], 0, 1000, 5000⟩] (by simp)
  have hhead : (isortLe (fun a b : Transaction => dateLe a.date b.date)
      [⟨⟨2024, 1, 5⟩, [], [], [], 0, 1000, 5000⟩]).headI =
      ⟨⟨2024, 1, 5⟩, [], [], [], 0, 1000, 5000⟩ := by
    norm_num [isortLe, insertLe, List.headI]
  have hlast : (isortLe (fun a b : Transaction => dateLe a.date b.date)
      [⟨⟨2024, 1, 5⟩, [], [], [], 0, 1000, 5000⟩]).getLastD default =
      ⟨⟨2024, 1, 5⟩, [], [], [], 0, 1000, 5000⟩ := by
    norm_num [isortLe, insertLe, List.getLastD]
  have h1 := h.1 (by rw [hhead]; norm_num)
  rw [hhead] at h1
  have h3 := h.2.2.1
  rw [hlast] at h3
  constructor
  · simp only at h1
    linarith
  · simpa using h3

-- ------------------------------------------------------------------
-- Claim C8: monthly totals partition the summary totals
-- ------------------------------------------------------------------

theorem bumpMonth_sum_credit (acc : List ((ℕ × ℕ) × ℚ × ℚ)) (k : ℕ × ℕ) (c d : ℚ) :
    ((bumpMonth k c d acc).map fun g => g.2.1).sum = ((acc.map fun g => g.2.1).sum) + c := by
  induction acc with
  | nil => simp [bumpMonth]
  | cons g acc ih =>
    obtain ⟨k0, c0, d0⟩ := g
    simp only [bumpMonth]
    split
    · simp only [List.map_cons, List.sum_cons]
      ring
    · simp only [List.map_cons, List.sum_cons, ih]
      ring

theorem bumpMonth_sum_debit (acc : List ((ℕ × ℕ) × ℚ × ℚ)) (k : ℕ × ℕ) (c d : ℚ) :
    ((bumpMonth k c d acc).map fun g => g.2.2).sum = ((acc.map fun g => g.2.2).sum) + d := by
  induction acc with
  | nil => simp [bumpMonth]
  | cons g acc ih =>
    obtain ⟨k0, c0, d0⟩ := g
    simp only [bumpMonth]
    split
    · simp only [List.map_cons, List.sum_cons]
      ring
    · simp only [List.map_cons, List.sum_cons, ih]
      ring

theorem monthly_fold_sum_credit (df : List Transaction) :
    ∀ acc : List ((ℕ × ℕ) × ℚ × ℚ),
      ((df.foldl (fun a t => bumpMonth (monthOf t) t.credit t.debit a) acc).map
          fun g => g.2.1).sum =
        (acc.map fun g => g.2.1).sum + total_credit_of df := by
  induction df with
  | nil =>
    intro acc
    simp [total_credit_of]
  | cons t df ih =>
    intro acc
    simp only [List.foldl_cons]
    rw [ih, bumpMonth_sum_credit]
    simp only [total_credit_of, List.map_cons, List.sum_cons]
    ring

theorem monthly_fold_sum_debit (df : List Transaction) :
    ∀ acc : List ((ℕ × ℕ) × ℚ × ℚ),
      ((df.foldl (fun a t => bumpMonth (monthOf t) t.credit t.debit a) acc).map
          fun g => g.2.2).sum =
        (acc.map fun g => g.2.2).sum + total_debit_of df := by
  induction df with
  | nil =>
    intro acc
    simp [total_debit_of]
  | cons t df ih =>
    intro acc
    simp only [List.foldl_cons]
    rw [ih, bumpMonth_sum_debit]
    simp only [total_debit_of, List.map_cons, List.sum_cons]
    ring

theorem isortLe_map_sum (le : α → α → Bool) (f : α → ℚ) (l : List α) :
    ((isortLe le l).map f).sum = (l.map f).sum :=
  ((isortLe_perm le l).map f).sum_eq

/-- C8: the bucket credit totals of the monthly summary sum to the ledger's
total credit, and the bucket debit totals to the total debit; hence the rounded
Summary fields equal the correspondingly rounded bucket sums. -/
theorem C8_monthly_totals (df : List Transaction) (hne : df ≠ []) :
    ((generate_monthly_summary df).map fun b => b.credit).sum = total_credit_of df ∧
      ((generate_monthly_summary df).map fun b => b.debit).sum = total_debit_of df ∧
      round2 ((generate_monthly_summary df).map fun b => b.credit).sum =
        (generate_summary df).total_income ∧
      round2 ((generate_monthly_summary df).map fun b => b.debit).sum =
        (generate_summary df).total_expense := by
  have hc : ((generate_monthly_summary df).map fun b => b.credit).sum = total_credit_of df := by
    unfold generate_monthly_summary
    rw [List.map_map]
    have hfun : ((fun b : MonthlyBucket => b.credit) ∘
        fun g : (ℕ × ℕ) × ℚ × ℚ => (⟨g.1, g.2.1, g.2.2, g.2.1 - g.2.2⟩ : MonthlyBucket)) =
        fun g : (ℕ × ℕ) × ℚ × ℚ => g.2.1 := rfl
    rw [hfun, isortLe_map_sum]
    simpa using monthly_fold_sum_credit df []
  have hd : ((generate_monthly_summary df).map fun b => b.debit).sum = total_debit_of df := by
    unfold generate_monthly_summary
    rw [List.map_map]
    have hfun : ((fun b : MonthlyBucket => b.debit) ∘
        fun g : (ℕ × ℕ) × ℚ × ℚ => (⟨g.1, g.2.1, g.2.2, g.2.1 - g.2.2⟩ : MonthlyBucket)) =
        fun g : (ℕ × ℕ) × ℚ × ℚ => g.2.2 := rfl
    rw [hfun, isortLe_map_sum]
    simpa using monthly_fold_sum_debit df []
  exact ⟨hc, hd, by rw [hc]; rfl, by rw [hd]; rfl⟩

/-- Witness for C8 at the two-transaction ledger of the spec's Scenario A. -/
theorem C8_witness :
    ((generate_monthly_summary [⟨⟨2024, 1, 5⟩, [], [], [], 0, 1000, 5000⟩,
          ⟨⟨2024, 1, 20⟩, [], [], [], 200, 0, 4800⟩]).map fun b => b.credit).sum =
        total_credit_of [⟨⟨2024, 1, 5⟩, [], [], [], 0, 1000, 5000⟩,
          ⟨⟨2024, 1, 20⟩, [], [], [], 200, 0, 4800⟩] ∧
      ((generate_monthly_summary [⟨⟨2024, 1, 5⟩, [], [], [], 0, 1000, 5000⟩,
          ⟨⟨2024, 1, 20⟩, [], [], [], 200, 0, 4800⟩]).map fun b => b.debit).sum =
        total_debit_of [⟨⟨2024, 1, 5⟩, [], [], [], 0, 1000, 5000⟩,
          ⟨⟨2024, 1, 20⟩, [], [], [], 200, 0, 4800⟩] :=
  ⟨(C8_monthly_totals _ (by simp)).1, (C8_monthly_totals _ (by simp)).2.1⟩

-- ------------------------------------------------------------------
-- Claim C7: the daily-last characterization of avg_balance
-- ------------------------------------------------------------------

theorem lastPerDay_append (df : List Transaction) (t : Transaction) :
    lastPerDay (df ++ [t]) = updateAssoc t.date t (lastPerDay df) := by
  unfold lastPerDay
  rw [List.foldl_append]
  rfl

theorem dedupDates_append (df : List Transaction) (t : Transaction) :
    dedupDates (df ++ [t]) =
      if t.date ∈ dedupDates df then dedupDates df else dedupDates df ++ [t.date] := by
  unfold dedupDates
  rw [List.foldl_append]
  rfl

theorem getLastD_append_singleton (l : List α) (a d : α) :
    (l ++ [a]).getLastD d = a := by
  induction l generalizing d with
  | nil => rfl
  | cons b l ih =>
    rw [List.cons_append, List.getLastD_cons]
    exact ih b

theorem lastWith_append (df : List Transaction) (t : Transaction) (d : Date) :
    lastWith (df ++ [t]) d = if t.date = d then t else lastWith df d := by
  unfold lastWith
  rw [List.filter_append]
  by_cases h : t.date = d
  · rw [if_pos h]
    have : List.filter (fun x => decide (x.date = d)) [t] = [t] := by
      simp [List.filter, h]
    rw [this, getLastD_append_singleton]
  · rw [if_neg h]
    have : List.filter (fun x => decide (x.date = d)) [t] = [] := by
      simp [List.filter, h]
    rw [this, List.append_nil]

theorem dedupDates_nodup (df : List Transaction) : (dedupDates df).Nodup := by
  induction df using List.reverseRecOn with
  | nil => simp [dedupDates]
  | append_singleton df t ih =>
    rw [dedupDates_append]
    split
    · exact ih
    · rename_i hmem
      simp [List.nodup_append, ih, hmem]

theorem updateAssoc_map_not_mem (l : List Date) (k : Date) (v : Transaction)
    (g : Date → Transaction) (hk : k ∉ l) :
    updateAssoc k v (l.map fun d => (d, g d)) = (l.map fun d => (d, g d)) ++ [(k, v)] := by
  induction l with
  | nil => rfl
  | cons d l ih =>
    have hdk : d ≠ k := fun h => hk (h ▸ List.mem_cons_self d l)
    simp only [List.map_cons, updateAssoc, if_neg hdk, List.cons_append]
    rw [ih (fun h => hk (List.mem_cons_of_mem d h))]

theorem updateAssoc_map_mem (l : List Date) (k : Date) (v : Transaction)
    (g : Date → Transaction) (hnd : l.Nodup) (hk : k ∈ l) :
    updateAssoc k v (l.map fun d => (d, g d)) =
      l.map fun d => (d, if d = k then v else g d) := by
  induction l with
  | nil => cases hk
  | cons d l ih =>
    rcases List.nodup_cons.1 hnd with ⟨hd, hl⟩
    by_cases hdk : d = k
    · subst hdk
      simp only [List.map_cons, updateAssoc, eq_self_iff_true, if_true]
      congr 1
      apply List.map_congr_left
      intro a ha
      have : a ≠ d := fun h => hd (h ▸ ha)
      rw [if_neg this]
    · have hk2 : k ∈ l := by
        rcases List.mem_cons.1 hk with h | h
        · exact absurd h.symm hdk
        · exact h
      simp only [List.map_cons, updateAssoc, if_neg hdk, if_neg hdk]
      rw [ih hl hk2]

theorem lastPerDay_eq (df : List Transaction) :
    lastPerDay df = (dedupDates df).map fun d => (d, lastWith df d) := by
  induction df using List.reverseRecOn with
  | nil => rfl
  | append_singleton df t ih =>
    rw [lastPerDay_append, dedupDates_append, ih]
    by_cases hmem : t.date ∈ dedupDates df
    · rw [if_pos hmem]
      rw [updateAssoc_map_mem _ _ _ _ (dedupDates_nodup df) hmem]
      apply List.map_congr_left
      intro d hd
      rw [lastWith_append]
      by_cases h : d = t.date
      · rw [if_pos h, if_pos h.symm]
      · rw [if_neg h, if_neg (fun hc => h hc.symm)]
    · rw [if_neg hmem]
      rw [updateAssoc_map_not_mem _ _ _ _ hmem]
      rw [List.map_append]
      congr 1
      · apply List.map_congr_left
        intro d hd
        rw [lastWith_append]
        have : t.date ≠ d := fun h => hmem (h ▸ hd)
        rw [if_neg this]
      · simp [lastWith_append]

/-- C7: the summary's average balance is the mean over calendar days of each
day's LAST transaction balance — one observation per distinct day — and not
the mean over every row (analyzer.py's competing definition); on a concrete
ledger with two same-day transactions the two definitions give 250 and 200. -/
theorem C7_avg_balance_daily_last (df : List Transaction) :
    avg_balance_of df = listMean (specDailyLastBalances df) ∧
      (generate_summary df).avg_balance = round2 (listMean (specDailyLastBalances df)) ∧
      avg_balance_of [⟨⟨2024, 1, 5⟩, [], [], [], 0, 0, 100⟩,
        ⟨⟨2024, 1, 5⟩, [], [], [], 0, 0, 200⟩,
        ⟨⟨2024, 1, 6⟩, [], [], [], 0, 0, 300⟩] = 250 ∧
      analyzer_avg_balance [⟨⟨2024, 1, 5⟩, [], [], [], 0, 0, 100⟩,
        ⟨⟨2024, 1, 5⟩, [], [], [], 0, 0, 200⟩,
        ⟨⟨2024, 1, 6⟩, [], [], [], 0, 0, 300⟩] = 200 ∧
      (250 : ℚ) ≠ 200 := by
  have hmain : ∀ l : List Transaction, avg_balance_of l = listMean (specDailyLastBalances l) := by
    intro l
    unfold avg_balance_of specDailyLastBalances
    rw [lastPerDay_eq, List.map_map]
    rfl
  refine ⟨hmain df, ?_, ?_, ?_, by norm_num⟩
  · show round2 (avg_balance_of df) = _
    rw [hmain df]
  · norm_num [avg_balance_of, lastPerDay, updateAssoc, listMean, List.foldl]
  · norm_num [analyzer_avg_balance, listMean]

-- ------------------------------------------------------------------
-- Claim C6: what the extractor emits
-- ------------------------------------------------------------------

theorem mem_of_mem_stripChars (s : List Char) (x : Char) (h : x ∈ stripChars s) : x ∈ s := by
  unfold stripChars at h
  rw [List.mem_reverse] at h
  have h1 := (List.dropWhile_sublist (l := (s.dropWhile Char.isWhitespace).reverse)
    (p := Char.isWhitespace)).mem h
  rw [List.mem_reverse] at h1
  exact (List.dropWhile_sublist (l := s) (p := Char.isWhitespace)).mem h1

theorem mem_of_mem_removeCommas (s : List Char) (x : Char) (h : x ∈ removeCommas s) : x ∈ s :=
  (List.mem_filter.1 h).1

theorem parseUnsigned_nonneg (s : List Char) (q : ℚ) (h : parseUnsigned s = some q) :
    0 ≤ q := by
  unfold parseUnsigned at h
  split at h
  · split at h
    · rw [Option.some.injEq] at h
      subst h
      positivity
    · exact absurd h (by simp)
  · split at h
    · rw [Option.some.injEq] at h
      subst h
      positivity
    · exact absurd h (by simp)
  · exact absurd h (by simp)

theorem parseFloat_nonneg (s : List Char) (q : ℚ) (hm : '-' ∉ s)
    (h : parseFloat s = some q) : 0 ≤ q := by
  unfold parseFloat at h
  split at h
  · exact absurd (List.mem_cons_self '-' _) hm
  · exact parseUnsigned_nonneg _ _ h
  · exact parseUnsigned_nonneg _ _ h

theorem parseAmount_nonneg (s : List Char) (q : ℚ) (hm : '-' ∉ s)
    (h : parseAmount s = some q) : 0 ≤ q := by
  unfold parseAmount at h
  split at h
  · rw [Option.some.injEq] at h
    subst h
    exact le_refl 0
  · refine parseFloat_nonneg _ _ ?_ h
    intro hc
    exact hm (mem_of_mem_removeCommas s '-' (mem_of_mem_stripChars _ '-' hc))

theorem classifyStep_noMinus (b : Bands) (w : Token) (hw : '-' ∉ w.text)
    (hb : NoMinusBands b) : NoMinusBands (classifyStep b w) := by
  obtain ⟨h1, h2, h3, h4, h5, h6⟩ := hb
  have hsp : ('-' : Char) ∉ [' '] := by decide
  simp only [classifyStep, NoMinusBands]
  split_ifs <;>
    refine ⟨?_, ?_, ?_, ?_, ?_, ?_⟩ <;>
    simp_all [List.mem_append]

theorem bands_fold_noMinus (ws : List Token) :
    ∀ b : Bands, (∀ w ∈ ws, '-' ∉ w.text) → NoMinusBands b →
      NoMinusBands (ws.foldl classifyStep b) := by
  induction ws with
  | nil => intro b _ hb; exact hb
  | cons w ws ih =>
    intro b hws hb
    rw [List.foldl_cons]
    exact ih _ (fun v hv => hws v (List.mem_cons_of_mem w hv))
      (classifyStep_noMinus b w (hws w (List.mem_cons_self w ws)) hb)

theorem classifyBands_noMinus (row_words : List Token)
    (h : ∀ w ∈ row_words, '-' ∉ w.text) : NoMinusBands (classifyBands row_words) :=
  bands_fold_noMinus row_words _ h (by refine ⟨?_, ?_, ?_, ?_, ?_, ?_⟩ <;> simp)

theorem processRow_nonneg (row_words : List Token) (t : Transaction)
    (hmin : ∀ w ∈ row_words, '-' ∉ w.text) (h : processRow row_words = some t) :
    0 ≤ t.debit ∧ 0 ≤ t.credit := by
  unfold processRow at h
  cases hs : isortLe (fun v w => decide (v.x0 ≤ w.x0)) row_words with
  | nil =>
    rw [hs] at h
    exact absurd h (by simp)
  | cons first rest =>
    rw [hs] at h
    have hmem : ∀ w ∈ first :: rest, '-' ∉ w.text := by
      intro w hw
      exact hmin w ((mem_isortLe _ row_words w).1 (hs ▸ hw))
    have hbands := classifyBands_noMinus (first :: rest) hmem
    simp only at h
    split at h
    · exact absurd h (by simp)
    · split at h
      · cases hd : parseDate first.text with
        | none =>
          rw [hd] at h
          exact absurd h (by simp)
        | some date =>
          rw [hd] at h
          cases hw : parseAmount (classifyBands (first :: rest)).withdrawal with
          | none =>
            rw [hw] at h
            exact absurd h (by simp)
          | some wd =>
            cases hdep : parseAmount (classifyBands (first :: rest)).deposit with
            | none =>
              rw [hw, hdep] at h
              exact absurd h (by simp)
            | some dep =>
              cases hbal : parseAmount (classifyBands (first :: rest)).balance with
              | none =>
                rw [hw, hdep, hbal] at h
                exact absurd h (by simp)
              | some bal =>
                rw [hw, hdep, hbal] at h
                rw [Option.some.injEq] at h
                subst h
                exact ⟨parseAmount_nonneg _ _ hbands.2.2.2.1 hw,
                  parseAmount_nonneg _ _ hbands.2.2.2.2.1 hdep⟩
      · exact absurd h (by simp)

theorem addToRows_tokens (rows : List (ℤ × List Token)) (k : ℤ) (w : Token)
    (p : ℤ × List Token) (hp : p ∈ addToRows k w rows) :
    ∀ x ∈ p.2, (∃ q ∈ rows, x ∈ q.2) ∨ x = w := by
  induction rows with
  | nil =>
    intro x hx
    simp only [addToRows, List.mem_singleton] at hp
    subst hp
    simp only [List.mem_singleton] at hx
    exact Or.inr hx
  | cons g rows ih =>
    obtain ⟨k0, ws⟩ := g
    intro x hx
    simp only [addToRows] at hp
    split at hp
    · rcases List.mem_cons.1 hp with rfl | hp2
      · simp only [List.mem_append, List.mem_singleton] at hx
        rcases hx with hx | hx
        · exact Or.inl ⟨(k0, ws), List.mem_cons_self _ _, hx⟩
        · exact Or.inr hx
      · exact Or.inl ⟨p, List.mem_cons_of_mem _ hp2, hx⟩
    · rcases List.mem_cons.1 hp with rfl | hp2
      · exact Or.inl ⟨_, List.mem_cons_self _ _, hx⟩
      · rcases ih hp2 x hx with ⟨q, hq, hxq⟩ | hxw
        · exact Or.inl ⟨q, List.mem_cons_of_mem _ hq, hxq⟩
        · exact Or.inr hxw

theorem rows_fold_tokens (ws : List Token) :
    ∀ (acc : List (ℤ × List Token)) (U : List Token),
      (∀ p ∈ acc, ∀ x ∈ p.2, x ∈ U) → (∀ w ∈ ws, w ∈ U) →
      ∀ p ∈ ws.foldl (fun rows w => addToRows (roundHalfEven w.top) w rows) acc,
        ∀ x ∈ p.2, x ∈ U := by
  induction ws with
  | nil =>
    intro acc U hacc _ p hp x hx
    exact hacc p hp x hx
  | cons w ws ih =>
    intro acc U hacc hws p hp x hx
    rw [List.foldl_cons] at hp
    refine ih _ U ?_ (fun v hv => hws v (List.mem_cons_of_mem w hv)) p hp x hx
    intro q hq y hy
    rcases addToRows_tokens acc _ w q hq y hy with ⟨r, hr, hyr⟩ | rfl
    · exact hacc r hr y hyr
    · exact hws y (List.mem_cons_self _ _)

theorem groupRows_tokens (words : List Token) :
    ∀ p ∈ groupRows words, ∀ x ∈ p.2, x ∈ words := by
  intro p hp x hx
  exact rows_fold_tokens words [] words (by simp) (fun w hw => hw) p hp x hx

theorem parse_fold_append (pages : List (List Token)) :
    ∀ acc : List Transaction,
      pages.foldl (fun acc page => acc ++ pageTxns page) acc =
        acc ++ (pages.map pageTxns).join := by
  induction pages with
  | nil => intro acc; simp
  | cons page pages ih =>
    intro acc
    rw [List.foldl_cons, ih, List.map_cons]
    simp [List.append_assoc]

theorem mem_parse (t : Transaction) (pages : List (List Token))
    (h : t ∈ parse_hdfc_pdf pages) : ∃ page ∈ pages, t ∈ pageTxns page := by
  unfold parse_hdfc_pdf at h
  rw [parse_fold_append pages []] at h
  simp only [List.nil_append, List.mem_join] at h
  rcases h with ⟨l, hl, htl⟩
  rcases List.mem_map.1 hl with ⟨page, hpage, rfl⟩
  exact ⟨page, hpage, htl⟩

/-- C6 counterexample: a row whose only token is the date parses with empty
debit and credit bands, which map to 0.0 — and the both-zero row IS emitted;
and a "-100" token in the withdrawal band (x0 = 400) is emitted as a negative
debit.  Both contradict the claimed invariant. -/
theorem C6_counterexample :
    parse_hdfc_pdf [[⟨['0', '5', '/', '0', '1', '/', '2', '4'], 30, 10⟩]] =
        [⟨⟨2024, 1, 5⟩, [], [], [], 0, 0, 0⟩] ∧
      parse_hdfc_pdf [[⟨['0', '5', '/', '0', '1', '/', '2', '4'], 30, 10⟩,
          ⟨['-', '1', '0', '0'], 400, 10⟩]] =
        [⟨⟨2024, 1, 5⟩, [], [], [], -100, 0, 0⟩] := by
  constructor <;>
    norm_num +decide [parse_hdfc_pdf, pageTxns, groupRows, addToRows, roundHalfEven,
      processRow, isortLe, insertLe, joinSpace, containsSub, dateMarker, narrationMarker,
      parseDate, splitOnChar, digitsToNat, daysInMonth, isLeap, classifyBands, classifyStep,
      parseAmount, stripChars, removeCommas, parseFloat, parseUnsigned, isDigitC, digitVal,
      List.filterMap, List.foldl, List.isPrefixOf]

/-- C6 amended: every transaction the extractor emits from a token stream
whose token texts carry no minus sign has debit ≥ 0 and credit ≥ 0 (empty
bands parse to 0.0); rows in which both debit and credit are zero are emitted
as zero-amount transactions, not discarded, and a minus-signed band text is
emitted as a negative amount. -/
theorem C6_amended_nonneg (pages : List (List Token))
    (hm : ∀ page ∈ pages, ∀ w ∈ page, '-' ∉ w.text) :
    ∀ t ∈ parse_hdfc_pdf pages, 0 ≤ t.debit ∧ 0 ≤ t.credit := by
  intro t ht
  obtain ⟨page, hpage, hpt⟩ := mem_parse t pages ht
  unfold pageTxns at hpt
  rcases List.mem_filterMap.1 hpt with ⟨row, hrow, hpr⟩
  rcases List.mem_map.1 hrow with ⟨p, hp, rfl⟩
  exact processRow_nonneg p.2 t
    (fun w hw => hm page hpage w (groupRows_tokens page p hp w hw)) hpr

/-- Witness for C6 at a concrete minus-free token stream. -/
theorem C6_witness :
    0 ≤ (⟨⟨2024, 1, 5⟩, [], [], [], 0, 0, 0⟩ : Transaction).debit ∧
      0 ≤ (⟨⟨2024, 1, 5⟩, [], [], [], 0, 0, 0⟩ : Transaction).credit := by
  have hp : parse_hdfc_pdf [[⟨['0', '5', '/', '0', '1', '/', '2', '4'], 30, 10⟩]] =
      [⟨⟨2024, 1, 5⟩, [], [], [], 0, 0, 0⟩] := by
    norm_num +decide [parse_hdfc_pdf, pageTxns, groupRows, addToRows, roundHalfEven,
      processRow, isortLe, insertLe, joinSpace, containsSub, dateMarker, narrationMarker,
      parseDate, splitOnChar, digitsToNat, daysInMonth, isLeap, classifyBands, classifyStep,
      parseAmount, stripChars, removeCommas, parseFloat, parseUnsigned, isDigitC, digitVal,
      List.filterMap, List.foldl, List.isPrefixOf]
  refine C6_amended_nonneg [[⟨['0', '5', '/', '0', '1', '/', '2', '4'], 30, 10⟩]] ?_ _ ?_
  · intro page hpage w hw
    rcases List.mem_singleton.1 hpage with rfl
    rcases List.mem_singleton.1 hw with rfl
    decide
  · rw [hp]
    exact List.mem_singleton_self _
